import Mathlib

/-
Verification of the PFEP analytics layer (src/streamlit_app.py,
analytics_and_reporting) against its specification.

The analytics operate on a pandas DataFrame of part records.  Numeric cells
are float64 and may be NaN; a cell is modelled as Option ℚ (none = NaN) and
float arithmetic on possibly-NaN / infinite values is modelled by the EF type
below, with exact rational arithmetic in place of rounding.  Boolean masks,
groupby, and sort_values are modelled on lists, preserving row order exactly
as pandas does.
-/

/-- One row of the PFEP table: the subset of columns the analytics read.
Columns: Part Number, Supplier, Usage Rate, Min Inventory, Max Inventory,
Avg Lead Time (days), Current Inventory, Remaining Usage Time (Days).
The numeric columns are float64 in the source and may be NaN; a missing
value is `none`. -/
structure PartRecord where
  partNumber : String
  supplier : String
  usageRate : Option ℚ
  minInventory : Option ℚ
  maxInventory : Option ℚ
  avgLeadTimeDays : Option ℚ
  currentInventory : Option ℚ
  remainingUsageTimeDays : Option ℚ
deriving DecidableEq

/-- The filter block of analytics_and_reporting: keep rows whose Supplier is
among the selected suppliers (when that selection is non-empty) and whose
Part Number is among the selected parts (when that selection is non-empty).
An empty selection places no restriction on its axis. -/
def applyFilters (catalog : List PartRecord) (selSuppliers selParts : List String) :
    List PartRecord :=
  let d1 := if selSuppliers.isEmpty then catalog
    else catalog.filter fun r => selSuppliers.contains r.supplier
  if selParts.isEmpty then d1
  else d1.filter fun r => selParts.contains r.partNumber

/-- Pandas elementwise comparison of two possibly-missing float cells:
`a < b` is true only when both cells are present and the values compare;
a NaN on either side compares false, never raising. -/
def optLt (a b : Option ℚ) : Bool :=
  match a, b with
  | some x, some y => decide (x < y)
  | _, _ => false

/-- The understock mask of the source:
filtered_data[filtered_data[CurrentInventory] < filtered_data[MinInventory]],
keeping the rows in their original order. -/
def low_inventory (d : List PartRecord) : List PartRecord :=
  d.filter fun r => optLt r.currentInventory r.minInventory

/-- Modelled from the spec: the Overstock-capacity rule — rows whose UsageRate
is present and greater than MaxInventory (both fields must be present, rows
missing either are excluded).  The script in src/streamlit_app.py computes
only the understock list; the overstock rule exists only in the spec. -/
def overstock_flagged (d : List PartRecord) : List PartRecord :=
  d.filter fun r => optLt r.maxInventory r.usageRate

/-- Modelled from the spec: the Threshold Analyzer output, the ordered pair
(Understocked, OverstockFlagged).  Only the first component is computed in
src/streamlit_app.py. -/
def thresholdAnalyzer (d : List PartRecord) : List PartRecord × List PartRecord :=
  (low_inventory d, overstock_flagged d)

/-- Lexicographic comparison of two character lists by Unicode code point,
the order Python uses on str and hence the order of pandas groupby keys. -/
def charListLe : List Char → List Char → Bool
  | [], _ => true
  | _ :: _, [] => false
  | a :: as, b :: bs =>
    if a.toNat < b.toNat then true
    else if b.toNat < a.toNat then false
    else charListLe as bs

/-- Lexicographic order on strings (by Unicode code point). -/
def strLeB (a b : String) : Bool := charListLe a.data b.data

/-- Proposition that s comes strictly before t in the lexicographic order. -/
def strBefore (s t : String) : Prop := strLeB s t = true ∧ s ≠ t

/-- Stable insert used by insertion sort: x is placed before the first element
it does not strictly follow, hence before every element it ties with. -/
def sInsert {α : Type} (le : α → α → Bool) (x : α) : List α → List α
  | [] => [x]
  | y :: ys => if le x y then x :: y :: ys else y :: sInsert le x ys

/-- Stable insertion sort, ascending by le.  Numpy's quicksort — used by both
sorted groupby keys and sort_values — is plain insertion sort on runs of at
most 16 elements, so on tables of that size this is the exact sort the source
executes; on larger tables it is the stable refinement of it. -/
def sSort {α : Type} (le : α → α → Bool) : List α → List α
  | [] => []
  | x :: xs => sInsert le x (sSort le xs)

/-- The group keys of filtered_data.groupby('Supplier'): the distinct Supplier
values, in ascending lexicographic order (groupby sorts keys by default). -/
def distinctSuppliers (d : List PartRecord) : List String :=
  sSort strLeB ((d.map fun r => r.supplier).dedup)

/-- The rows of one supplier's group, in their original order. -/
def groupOf (d : List PartRecord) (s : String) : List PartRecord :=
  d.filter fun r => r.supplier == s

/-- Pandas mean with skipna: the mean of the present values, NaN (none) when
every value of the group is missing. -/
def meanOpt (xs : List (Option ℚ)) : Option ℚ :=
  let vs := xs.filterMap id
  if vs.isEmpty then none else some (vs.sum / (vs.length : ℚ))

/-- One row of the supplier_metrics table, columns in source order:
Supplier, Avg Lead Time, Number of Parts, Total Usage Rate,
Avg Remaining Usage Time. -/
structure SupplierMetrics where
  supplier : String
  avgLeadTime : Option ℚ
  partCount : ℕ
  totalUsageRate : ℚ
  avgRemainingUsageTime : Option ℚ
deriving DecidableEq

/-- The aggregation row for one group key s of
groupby('Supplier').agg(mean, count, sum, mean): Avg Lead Time is the skipna
mean of Avg Lead Time (days), Number of Parts is the count of (always
present) Part Number cells, Total Usage Rate is the skipna sum of Usage Rate
(an all-missing group sums to 0), Avg Remaining Usage Time is the skipna
mean of Remaining Usage Time (Days). -/
def groupStats (d : List PartRecord) (s : String) : SupplierMetrics :=
  { supplier := s
    avgLeadTime := meanOpt ((groupOf d s).map fun r => r.avgLeadTimeDays)
    partCount := (groupOf d s).length
    totalUsageRate := ((groupOf d s).filterMap fun r => r.usageRate).sum
    avgRemainingUsageTime := meanOpt ((groupOf d s).map fun r => r.remainingUsageTimeDays) }

/-- The supplier_metrics table: one aggregation row per distinct supplier of
the filtered data, rows in ascending key order as groupby produces them. -/
def supplierAggregate (d : List PartRecord) : List SupplierMetrics :=
  (distinctSuppliers d).map (groupStats d)

/-- A float64 cell value as the rating computation sees it: NaN, one of the
two infinities, or an exact finite value. -/
inductive EF where
  | nan : EF
  | pinf : EF
  | ninf : EF
  | fin : ℚ → EF
deriving DecidableEq

/-- Whether the value is NaN. -/
def EF.isNan : EF → Bool
  | nan => true
  | _ => false

/-- Whether the value is finite (not NaN and not an infinity). -/
def EF.isFinite : EF → Bool
  | fin _ => true
  | _ => false

/-- A possibly-missing cell as a float value: a missing cell is NaN. -/
def EF.ofOpt : Option ℚ → EF
  | none => nan
  | some q => fin q

/-- IEEE-754 addition on extended values, exact on finite ones. -/
def EF.addE : EF → EF → EF
  | nan, _ => nan
  | _, nan => nan
  | pinf, ninf => nan
  | ninf, pinf => nan
  | pinf, _ => pinf
  | _, pinf => pinf
  | ninf, _ => ninf
  | _, ninf => ninf
  | fin a, fin b => fin (a + b)

/-- IEEE-754 multiplication on extended values, exact on finite ones. -/
def EF.mulE : EF → EF → EF
  | nan, _ => nan
  | _, nan => nan
  | pinf, pinf => pinf
  | pinf, ninf => ninf
  | ninf, pinf => ninf
  | ninf, ninf => pinf
  | pinf, fin b => if 0 < b then pinf else if b < 0 then ninf else nan
  | fin a, pinf => if 0 < a then pinf else if a < 0 then ninf else nan
  | ninf, fin b => if 0 < b then ninf else if b < 0 then pinf else nan
  | fin a, ninf => if 0 < a then ninf else if a < 0 then pinf else nan
  | fin a, fin b => fin (a * b)

/-- IEEE-754 division on extended values, exact on finite ones: a finite
nonzero value divided by zero is a signed infinity (numpy emits a warning,
not an error), 0/0 and inf/inf are NaN, and finite/inf is 0. -/
def EF.divE : EF → EF → EF
  | nan, _ => nan
  | _, nan => nan
  | pinf, pinf => nan
  | pinf, ninf => nan
  | ninf, pinf => nan
  | ninf, ninf => nan
  | pinf, fin b => if 0 ≤ b then pinf else ninf
  | ninf, fin b => if 0 ≤ b then ninf else pinf
  | fin _, pinf => fin 0
  | fin _, ninf => fin 0
  | fin a, fin b =>
    if b = 0 then (if a = 0 then nan else if 0 < a then pinf else ninf)
    else fin (a / b)

/-- IEEE-754 comparison: NaN compares false against everything. -/
def EF.leE : EF → EF → Bool
  | nan, _ => false
  | _, nan => false
  | ninf, _ => true
  | _, ninf => false
  | _, pinf => true
  | pinf, _ => false
  | fin a, fin b => decide (a ≤ b)

/-- Total comparison used when ordering cells for a sort: agrees with leE on
non-NaN values; NaN sorts below everything (sorts never actually compare a
NaN cell — sort_values sets NaN rows aside first). -/
def EF.sortLe : EF → EF → Bool
  | nan, _ => true
  | _, nan => false
  | ninf, _ => true
  | _, ninf => false
  | _, pinf => true
  | pinf, _ => false
  | fin a, fin b => decide (a ≤ b)

/-- One step of the running maximum. -/
def efMaxStep (a b : EF) : EF := if EF.leE a b then b else a

/-- Pandas Series.max with skipna: the maximum of the non-NaN values, NaN when
every value is NaN (or the series is empty). -/
def efMax (xs : List EF) : EF :=
  match xs.filter fun x => !x.isNan with
  | [] => EF.nan
  | y :: ys => ys.foldl efMaxStep y

/-- The reciprocal term 1 / supplier_metrics['Avg Lead Time'] of the rating
formula, under float semantics: 1/0 is +infinity, 1/NaN is NaN. -/
def recipTerm (m : SupplierMetrics) : EF :=
  EF.divE (EF.fin 1) (EF.ofOpt m.avgLeadTime)

/-- The unnormalized Rating column exactly as the source computes it:
(1 / AvgLeadTime) * 0.4 + NumberOfParts * 0.3 + AvgRemainingUsageTime * 0.3,
with float constants 0.4 and 0.3 taken exact. -/
def rawScore (m : SupplierMetrics) : EF :=
  EF.addE
    (EF.addE (EF.mulE (recipTerm m) (EF.fin (2 / 5)))
      (EF.mulE (EF.fin (m.partCount : ℚ)) (EF.fin (3 / 10))))
    (EF.mulE (EF.ofOpt m.avgRemainingUsageTime) (EF.fin (3 / 10)))

/-- A supplier_metrics row together with its normalized Rating cell. -/
structure RatedMetrics where
  metrics : SupplierMetrics
  rating : EF
deriving DecidableEq

/-- The normalization step of the source:
supplier_metrics['Rating'] = Rating / Rating.max() * 100, elementwise, with
the skipna maximum taken over the whole column. -/
def ratingScorer (ms : List SupplierMetrics) : List RatedMetrics :=
  ms.map fun m =>
    { metrics := m
      rating := EF.mulE (EF.divE (rawScore m) (efMax (ms.map rawScore))) (EF.fin 100) }

/-- Comparator on rows by their Rating cell. -/
def ratingLe (a b : RatedMetrics) : Bool := EF.sortLe a.rating b.rating

/-- sort_values('Rating', ascending=False): pandas nargsort reverses the
non-NaN rows, argsorts the reversed rows ascending, reverses the indexer
again, and appends the NaN rows at the end in their original order
(na_position last).  The double reversal makes the descending sort stable:
rows tying on Rating keep their original relative order.  The ascending
argsort is taken stable, which is exact for tables of at most 16 rows
(numpy insertion-sorts those) and the stable refinement of numpy's unstable
quicksort beyond that. -/
def sortValuesDesc (rs : List RatedMetrics) : List RatedMetrics :=
  (sSort ratingLe ((rs.filter fun r => !r.rating.isNan).reverse)).reverse
    ++ rs.filter fun r => r.rating.isNan

/-- The displayed supplier table: aggregate, score, then sort by Rating
descending. -/
def supplierPerformance (d : List PartRecord) : List RatedMetrics :=
  sortValuesDesc (ratingScorer (supplierAggregate d))

/-- The raw score written exactly as the spec words it:
0.4 * (1 / AvgLeadTime) + 0.3 * PartCount + 0.3 * AvgRemainingUsageTime. -/
def specRawScore (m : SupplierMetrics) : EF :=
  EF.addE
    (EF.addE (EF.mulE (EF.fin (2 / 5)) (recipTerm m))
      (EF.mulE (EF.fin (3 / 10)) (EF.fin (m.partCount : ℚ))))
    (EF.mulE (EF.fin (3 / 10)) (EF.ofOpt m.avgRemainingUsageTime))

/-- The Rating column as the spec words it (without the claimed rounding):
raw divided by the maximum raw score, times 100. -/
def specRatings (ms : List SupplierMetrics) : List EF :=
  ms.map fun m =>
    EF.mulE (EF.divE (specRawScore m) (efMax (ms.map specRawScore))) (EF.fin 100)

/-- Rounding a rational to 2 decimal places (half up), as the spec claims the
Rating is rounded. -/
def round2 (q : ℚ) : ℚ := ((Int.floor (q * 100 + 1 / 2) : ℤ) : ℚ) / 100

/-- Relation between a row of the sorted supplier table and any row after it:
either the later row's Rating is NaN (NaN rows close the table), or both
Ratings are comparable, the later one is not larger, and on a tie the
earlier row's Supplier comes strictly first lexicographically (the stable
descending sort keeps ties in the ascending groupby key order). -/
def afterRel (x y : RatedMetrics) : Prop :=
  y.rating.isNan = true ∨
    (x.rating.isNan = false ∧ y.rating.isNan = false ∧
      EF.leE y.rating x.rating = true ∧
      (x.rating = y.rating → strBefore x.metrics.supplier y.metrics.supplier))

/-- Modelled from the spec: the Usage Forecaster result — either the
InsufficientData signal or a fitted line with its projected points.  No
forecaster exists in src/streamlit_app.py (the script imports
LinearRegression but never calls it); the whole component is taken from the
spec. -/
inductive ForecastResult where
  | insufficientData : ForecastResult
  | forecast (slope intercept : ℚ) (projection : List (ℕ × ℚ)) : ForecastResult
deriving DecidableEq

/-- Modelled from the spec: the observation set for one selected part — the
UsageRate of every matching catalog row, in catalog order, paired with a
synthesized day offset 0, 1, ..., N-1. -/
def observations (catalog : List PartRecord) (part : String) : List (ℚ × ℚ) :=
  (((catalog.filter fun r => r.partNumber == part).filterMap fun r => r.usageRate).enum).map
    fun p => ((p.1 : ℚ), p.2)

/-- Ordinary least squares slope of a point set. -/
def olsSlope (pts : List (ℚ × ℚ)) : ℚ :=
  let n : ℚ := pts.length
  let sx := (pts.map fun p => p.1).sum
  let sy := (pts.map fun p => p.2).sum
  let sxy := (pts.map fun p => p.1 * p.2).sum
  let sxx := (pts.map fun p => p.1 * p.1).sum
  (n * sxy - sx * sy) / (n * sxx - sx * sx)

/-- Ordinary least squares intercept of a point set. -/
def olsIntercept (pts : List (ℚ × ℚ)) : ℚ :=
  ((pts.map fun p => p.2).sum - olsSlope pts * (pts.map fun p => p.1).sum)
    / (pts.length : ℚ)

/-- Modelled from the spec: the Usage Forecaster.  Fewer than 2 observations
yield the InsufficientData signal; otherwise an ordinary least squares line
is fitted through the observation points and evaluated at the next horizon
day offsets.  The spec's deterministic 20 percent validation holdout for 5
or more points depends on an unspecified seed permutation and is not
modelled; every claim about the forecaster involves at most 2 observations,
where the spec fits on all points. -/
def usageForecaster (catalog : List PartRecord) (part : String) (horizon : ℕ) :
    ForecastResult :=
  let obs := observations catalog part
  if obs.length < 2 then ForecastResult.insufficientData
  else
    ForecastResult.forecast (olsSlope obs) (olsIntercept obs)
      ((List.range horizon).map fun k =>
        (obs.length + k, olsSlope obs * ((obs.length + k : ℕ) : ℚ) + olsIntercept obs))

/-- The lexicographic comparison is reflexive. -/
theorem charListLe_refl : ∀ as : List Char, charListLe as as = true
  | [] => rfl
  | a :: as => by
    simp only [charListLe]
    rw [if_neg (Nat.lt_irrefl _), if_neg (Nat.lt_irrefl _)]
    exact charListLe_refl as

/-- The lexicographic comparison is total. -/
theorem charListLe_total : ∀ as bs : List Char,
    charListLe as bs = true ∨ charListLe bs as = true
  | [], _ => Or.inl rfl
  | _ :: _, [] => Or.inr rfl
  | a :: as, b :: bs => by
    simp only [charListLe]
    rcases Nat.lt_trichotomy a.toNat b.toNat with h | h | h
    · left
      rw [if_pos h]
    · rw [h]
      rw [if_neg (Nat.lt_irrefl _), if_neg (Nat.lt_irrefl _), if_neg (Nat.lt_irrefl _),
        if_neg (Nat.lt_irrefl _)]
      exact charListLe_total as bs
    · right
      rw [if_pos h]

/-- The lexicographic comparison is transitive. -/
theorem charListLe_trans : ∀ as bs cs : List Char,
    charListLe as bs = true → charListLe bs cs = true → charListLe as cs = true
  | [], _, _, _, _ => rfl
  | _ :: _, [], _, h1, _ => by simp [charListLe] at h1
  | _ :: _, _ :: _, [], _, h2 => by simp [charListLe] at h2
  | a :: as, b :: bs, c :: cs, h1, h2 => by
    simp only [charListLe] at h1 h2 ⊢
    have hab : a.toNat < b.toNat ∨ (a.toNat = b.toNat ∧ charListLe as bs = true) := by
      by_cases hlt : a.toNat < b.toNat
      · exact Or.inl hlt
      · by_cases hgt : b.toNat < a.toNat
        · rw [if_neg hlt, if_pos hgt] at h1
          exact absurd h1 (by decide)
        · rw [if_neg hlt, if_neg hgt] at h1
          exact Or.inr ⟨by omega, h1⟩
    have hbc : b.toNat < c.toNat ∨ (b.toNat = c.toNat ∧ charListLe bs cs = true) := by
      by_cases hlt : b.toNat < c.toNat
      · exact Or.inl hlt
      · by_cases hgt : c.toNat < b.toNat
        · rw [if_neg hlt, if_pos hgt] at h2
          exact absurd h2 (by decide)
        · rw [if_neg hlt, if_neg hgt] at h2
          exact Or.inr ⟨by omega, h2⟩
    rcases hab with hab | ⟨hab, hr1⟩ <;> rcases hbc with hbc | ⟨hbc, hr2⟩
    · rw [if_pos (by omega : a.toNat < c.toNat)]
    · rw [if_pos (by omega : a.toNat < c.toNat)]
    · rw [if_pos (by omega : a.toNat < c.toNat)]
    · rw [if_neg (by omega : ¬ a.toNat < c.toNat), if_neg (by omega : ¬ c.toNat < a.toNat)]
      exact charListLe_trans as bs cs hr1 hr2

/-- The string order is reflexive. -/
theorem strLeB_refl (a : String) : strLeB a a = true := charListLe_refl a.data

/-- The string order is total. -/
theorem strLeB_total (a b : String) : strLeB a b = true ∨ strLeB b a = true :=
  charListLe_total a.data b.data

/-- The string order is transitive. -/
theorem strLeB_trans (a b c : String) :
    strLeB a b = true → strLeB b c = true → strLeB a c = true :=
  charListLe_trans a.data b.data c.data

/-- Membership in a stable insert. -/
theorem mem_sInsert {α : Type} (le : α → α → Bool) (x a : α) :
    ∀ l : List α, a ∈ sInsert le x l ↔ a = x ∨ a ∈ l
  | [] => by simp [sInsert]
  | y :: ys => by
    simp only [sInsert]
    by_cases h : le x y = true
    · rw [if_pos h]
      simp [List.mem_cons]
    · rw [if_neg h]
      rw [List.mem_cons, mem_sInsert le x a ys, List.mem_cons]
      tauto

/-- Insertion sort does not add or drop elements. -/
theorem mem_sSort {α : Type} (le : α → α → Bool) (a : α) :
    ∀ l : List α, a ∈ sSort le l ↔ a ∈ l
  | [] => Iff.rfl
  | x :: xs => by
    simp only [sSort]
    rw [mem_sInsert, mem_sSort le a xs]
    exact (List.mem_cons).symm

/-- Stable insert preserves the sortedness-with-provenance invariant: the
output is ascending by le, and whenever a pair ties under le the pair is in
the original order Q. -/
theorem pairwise_sInsert {α : Type} (le : α → α → Bool) (Q : α → α → Prop)
    (htotal : ∀ a b, le a b = true ∨ le b a = true)
    (htrans : ∀ a b c, le a b = true → le b c = true → le a c = true) (x : α) :
    ∀ l : List α,
      l.Pairwise (fun a b => le a b = true ∧ (le b a = true → Q a b)) →
      (∀ y ∈ l, Q x y) →
      (sInsert le x l).Pairwise fun a b => le a b = true ∧ (le b a = true → Q a b)
  | [], _, _ => by simp [sInsert]
  | y :: ys, hp, hq => by
    rw [List.pairwise_cons] at hp
    obtain ⟨hy, hys⟩ := hp
    simp only [sInsert]
    by_cases h : le x y = true
    · rw [if_pos h]
      refine List.Pairwise.cons ?_ (List.Pairwise.cons hy hys)
      intro z hz
      rcases List.mem_cons.mp hz with rfl | hz
      · exact ⟨h, fun _ => hq z (List.mem_cons_self ..)⟩
      · exact ⟨htrans x y z h (hy z hz).1, fun _ => hq z (List.mem_cons_of_mem _ hz)⟩
    · have hyx : le y x = true := (htotal x y).resolve_left h
      rw [if_neg h]
      refine List.Pairwise.cons ?_
        (pairwise_sInsert le Q htotal htrans x ys hys
          fun z hz => hq z (List.mem_cons_of_mem _ hz))
      intro z hz
      rcases (mem_sInsert le x z ys).mp hz with rfl | hz
      · exact ⟨hyx, fun hxy => absurd hxy h⟩
      · exact hy z hz

/-- Stable insertion sort of a list whose pairs satisfy Q in order: the
output is ascending by le and every tied pair keeps its original order. -/
theorem pairwise_sSort {α : Type} (le : α → α → Bool) (Q : α → α → Prop)
    (htotal : ∀ a b, le a b = true ∨ le b a = true)
    (htrans : ∀ a b c, le a b = true → le b c = true → le a c = true) :
    ∀ l : List α, l.Pairwise Q →
      (sSort le l).Pairwise fun a b => le a b = true ∧ (le b a = true → Q a b)
  | [], _ => List.Pairwise.nil
  | x :: xs, hp => by
    rw [List.pairwise_cons] at hp
    simp only [sSort]
    exact pairwise_sInsert le Q htotal htrans x (sSort le xs)
      (pairwise_sSort le Q htotal htrans xs hp.2)
      fun y hy => hp.1 y ((mem_sSort le y xs).mp hy)

/-- IEEE comparison is transitive. -/
theorem EF.leE_trans : ∀ a b c : EF,
    EF.leE a b = true → EF.leE b c = true → EF.leE a c = true := by
  intro a b c h1 h2
  cases a <;> cases b <;> cases c <;> simp_all [EF.leE]
  linarith

/-- IEEE comparison is total on non-NaN values. -/
theorem EF.leE_total_nonNan (a b : EF) (ha : a.isNan = false) (hb : b.isNan = false) :
    EF.leE a b = true ∨ EF.leE b a = true := by
  cases a <;> cases b <;> simp_all [EF.leE, EF.isNan]
  exact le_total _ _

/-- IEEE comparison is reflexive on non-NaN values. -/
theorem EF.leE_refl_nonNan (a : EF) (ha : a.isNan = false) : EF.leE a a = true := by
  cases a <;> simp_all [EF.leE, EF.isNan]

/-- The sort comparison is reflexive. -/
theorem EF.sortLe_refl (a : EF) : EF.sortLe a a = true := by
  cases a <;> simp [EF.sortLe]

/-- The sort comparison is total. -/
theorem EF.sortLe_total (a b : EF) : EF.sortLe a b = true ∨ EF.sortLe b a = true := by
  cases a <;> cases b <;> simp [EF.sortLe]
  exact le_total _ _

/-- The sort comparison is transitive. -/
theorem EF.sortLe_trans : ∀ a b c : EF,
    EF.sortLe a b = true → EF.sortLe b c = true → EF.sortLe a c = true := by
  intro a b c h1 h2
  cases a <;> cases b <;> cases c <;> simp_all [EF.sortLe]
  linarith

/-- On non-NaN values the sort comparison coincides with IEEE comparison. -/
theorem EF.sortLe_eq_leE (a b : EF) (ha : a.isNan = false) (hb : b.isNan = false) :
    EF.sortLe a b = EF.leE a b := by
  cases a <;> cases b <;> simp_all [EF.sortLe, EF.leE, EF.isNan]

/-- The row comparator is total. -/
theorem ratingLe_total (a b : RatedMetrics) : ratingLe a b = true ∨ ratingLe b a = true :=
  EF.sortLe_total a.rating b.rating

/-- The row comparator is transitive. -/
theorem ratingLe_trans (a b c : RatedMetrics) :
    ratingLe a b = true → ratingLe b c = true → ratingLe a c = true :=
  EF.sortLe_trans a.rating b.rating c.rating

/-- The running maximum of non-NaN values is one of them, is non-NaN, and
bounds the start value and every element from above. -/
theorem efFold_max : ∀ (ys : List EF) (y : EF), y.isNan = false →
    (∀ x ∈ ys, x.isNan = false) →
    (ys.foldl efMaxStep y = y ∨ ys.foldl efMaxStep y ∈ ys)
    ∧ (ys.foldl efMaxStep y).isNan = false
    ∧ EF.leE y (ys.foldl efMaxStep y) = true
    ∧ ∀ x ∈ ys, EF.leE x (ys.foldl efMaxStep y) = true
  | [], y, hy, _ => ⟨Or.inl rfl, hy, EF.leE_refl_nonNan y hy, by simp⟩
  | z :: zs, y, hy, hzs => by
    have hz : z.isNan = false := hzs z (List.mem_cons_self ..)
    have hzsTail : ∀ x ∈ zs, x.isNan = false := fun x hx => hzs x (List.mem_cons_of_mem _ hx)
    have hstep : (efMaxStep y z).isNan = false ∧ EF.leE y (efMaxStep y z) = true
        ∧ EF.leE z (efMaxStep y z) = true ∧ (efMaxStep y z = y ∨ efMaxStep y z = z) := by
      unfold efMaxStep
      by_cases h : EF.leE y z = true
      · rw [if_pos h]
        exact ⟨hz, h, EF.leE_refl_nonNan z hz, Or.inr rfl⟩
      · rw [if_neg h]
        exact ⟨hy, EF.leE_refl_nonNan y hy, (EF.leE_total_nonNan y z hy hz).resolve_left h,
          Or.inl rfl⟩
    obtain ⟨h1, h2, h3, h4⟩ := hstep
    obtain ⟨hm, hnn, hle, hall⟩ := efFold_max zs (efMaxStep y z) h1 hzsTail
    have hfold : (z :: zs).foldl efMaxStep y = zs.foldl efMaxStep (efMaxStep y z) := rfl
    refine ⟨?_, by rw [hfold]; exact hnn, ?_, ?_⟩
    · rw [hfold]
      rcases hm with he | he
      · rcases h4 with h5 | h5
        · exact Or.inl (he.trans h5)
        · exact Or.inr (by rw [he, h5]; exact List.mem_cons_self ..)
      · exact Or.inr (List.mem_cons_of_mem _ he)
    · rw [hfold]
      exact EF.leE_trans y (efMaxStep y z) _ h2 hle
    · intro x hx
      rw [hfold]
      rcases List.mem_cons.mp hx with he | hx
      · rw [he]
        exact EF.leE_trans z (efMaxStep y z) _ h3 hle
      · exact hall x hx

/-- The skipna maximum of a non-empty all-comparable column is one of its
cells and bounds every cell from above. -/
theorem efMax_spec (xs : List EF) (hall : ∀ x ∈ xs, x.isNan = false) (hne : xs ≠ []) :
    efMax xs ∈ xs ∧ ∀ x ∈ xs, EF.leE x (efMax xs) = true := by
  have hfilter : xs.filter (fun x => !x.isNan) = xs :=
    List.filter_eq_self.mpr fun a ha => by simp [hall a ha]
  cases xs with
  | nil => exact absurd rfl hne
  | cons y ys =>
    have hmax : efMax (y :: ys) = List.foldl efMaxStep y ys := by
      unfold efMax
      rw [hfilter]
    have hy : y.isNan = false := hall y (List.mem_cons_self ..)
    have hys : ∀ x ∈ ys, x.isNan = false := fun x hx => hall x (List.mem_cons_of_mem _ hx)
    obtain ⟨hm, _, hle, hrest⟩ := efFold_max ys y hy hys
    rw [hmax]
    constructor
    · rcases hm with he | he
      · rw [he]
        exact List.mem_cons_self ..
      · exact List.mem_cons_of_mem _ he
    · intro x hx
      rcases List.mem_cons.mp hx with rfl | hx
      · exact hle
      · exact hrest x hx

/-- sort_values neither adds nor drops rows. -/
theorem mem_sortValuesDesc (rs : List RatedMetrics) (x : RatedMetrics) :
    x ∈ sortValuesDesc rs ↔ x ∈ rs := by
  simp only [sortValuesDesc, List.mem_append, List.mem_reverse, mem_sSort, List.mem_filter]
  constructor
  · rintro (⟨h, _⟩ | ⟨h, _⟩) <;> exact h
  · intro h
    cases hn : x.rating.isNan
    · exact Or.inl ⟨h, rfl⟩
    · exact Or.inr ⟨h, rfl⟩

/-- The sorted groupby keys are pairwise strictly ascending. -/
theorem pairwise_distinctSuppliers (d : List PartRecord) :
    (distinctSuppliers d).Pairwise strBefore := by
  have hnd : ((d.map fun r => r.supplier).dedup).Pairwise fun a b => a ≠ b :=
    List.nodup_dedup _
  have h2 := pairwise_sSort strLeB (fun a b : String => a ≠ b) strLeB_total strLeB_trans _ hnd
  refine h2.imp ?_
  intro a b hab
  refine ⟨hab.1, ?_⟩
  intro he
  exact (hab.2 (by rw [he]; exact strLeB_refl b)) he

/-- sort_values('Rating', ascending=False) of a table whose rows are in
strictly ascending Supplier order: every later row has a NaN Rating or a
Rating no larger, and rows tying on Rating keep their original strictly
ascending Supplier order (the descending sort is stable). -/
theorem pairwise_sortValuesDesc (rs : List RatedMetrics)
    (h : rs.Pairwise fun a b => strBefore a.metrics.supplier b.metrics.supplier) :
    (sortValuesDesc rs).Pairwise afterRel := by
  have hnonNan : ∀ x ∈ (rs.filter (fun r => !r.rating.isNan)).reverse,
      x.rating.isNan = false := by
    intro x hx
    have h2 := (List.mem_filter.mp (List.mem_reverse.mp hx)).2
    simpa using h2
  have hnan : ∀ x ∈ rs.filter (fun r => r.rating.isNan), x.rating.isNan = true :=
    fun x hx => (List.mem_filter.mp hx).2
  have hsub1 : (rs.filter fun r => !r.rating.isNan).Sublist rs := List.filter_sublist rs
  have hsub2 : (rs.filter fun r => r.rating.isNan).Sublist rs := List.filter_sublist rs
  have hrev : ((rs.filter fun r => !r.rating.isNan).reverse).Pairwise
      fun a b => strBefore b.metrics.supplier a.metrics.supplier := by
    rw [List.pairwise_reverse]
    exact h.sublist hsub1
  have hsorted := pairwise_sSort ratingLe
    (fun a b => strBefore b.metrics.supplier a.metrics.supplier)
    ratingLe_total ratingLe_trans _ hrev
  have hmemSorted : ∀ x ∈ sSort ratingLe ((rs.filter fun r => !r.rating.isNan).reverse),
      x.rating.isNan = false :=
    fun x hx => hnonNan x ((mem_sSort _ _ _).mp hx)
  unfold sortValuesDesc
  rw [List.pairwise_append]
  refine ⟨?_, ?_, ?_⟩
  · rw [List.pairwise_reverse]
    refine List.Pairwise.imp_of_mem ?_ hsorted
    intro a b ha hb hab
    have hna := hmemSorted a ha
    have hnb := hmemSorted b hb
    refine Or.inr ⟨hnb, hna, ?_, ?_⟩
    · rw [← EF.sortLe_eq_leE _ _ hna hnb]
      exact hab.1
    · intro he
      refine hab.2 ?_
      unfold ratingLe
      rw [he]
      exact EF.sortLe_refl _
  · refine List.Pairwise.imp_of_mem ?_ (h.sublist hsub2)
    intro a b _ hb _
    exact Or.inl (hnan b hb)
  · intro a _ b hb
    exact Or.inl (hnan b hb)

/-- Finite-by-finite division with nonzero divisor is exact rational division. -/
theorem EF.divE_fin (a b : ℚ) (hb : b ≠ 0) :
    EF.divE (EF.fin a) (EF.fin b) = EF.fin (a / b) := by
  show (if b = 0 then (if a = 0 then EF.nan else if 0 < a then EF.pinf else EF.ninf)
    else EF.fin (a / b)) = EF.fin (a / b)
  rw [if_neg hb]

/-- A positive finite value divided by zero is positive infinity. -/
theorem EF.divE_zero_pos (a : ℚ) (ha : 0 < a) :
    EF.divE (EF.fin a) (EF.fin 0) = EF.pinf := by
  show (if (0 : ℚ) = 0 then (if a = 0 then EF.nan else if 0 < a then EF.pinf else EF.ninf)
    else EF.fin (a / 0)) = EF.pinf
  rw [if_pos rfl, if_neg (ne_of_gt ha), if_pos ha]

/-- Zero divided by zero is NaN. -/
theorem EF.divE_zero_zero : EF.divE (EF.fin 0) (EF.fin 0) = EF.nan := by
  show (if (0 : ℚ) = 0 then (if (0 : ℚ) = 0 then EF.nan else if 0 < (0 : ℚ) then EF.pinf
    else EF.ninf) else EF.fin (0 / 0)) = EF.nan
  rw [if_pos rfl, if_pos rfl]

/-- Finite-by-finite multiplication is exact. -/
theorem EF.mulE_fin (a b : ℚ) : EF.mulE (EF.fin a) (EF.fin b) = EF.fin (a * b) := rfl

/-- Finite-by-finite addition is exact. -/
theorem EF.addE_fin (a b : ℚ) : EF.addE (EF.fin a) (EF.fin b) = EF.fin (a + b) := rfl

/-- NaN absorbs multiplication on the left. -/
theorem EF.mulE_nan_left (b : EF) : EF.mulE EF.nan b = EF.nan := by
  cases b <;> rfl

/-- Extended multiplication is commutative. -/
theorem EF.mulE_comm : ∀ a b : EF, EF.mulE a b = EF.mulE b a := by
  intro a b
  cases a <;> cases b <;> simp [EF.mulE]
  exact mul_comm _ _

/-- The pandas elementwise comparison holds exactly when both cells are
present and compare strictly. -/
theorem optLt_iff (a b : Option ℚ) :
    optLt a b = true ↔ ∃ x y : ℚ, a = some x ∧ b = some y ∧ x < y := by
  cases a <;> cases b <;> simp [optLt]

/-- C9: the Understocked list of the Threshold Analyzer contains exactly the
filtered records whose CurrentInventory is present and strictly below a
present MinInventory (so CurrentInventory 5 against MinInventory 10 is
flagged and 20 against 10 is not), preserves catalog order, and silently
excludes records missing either field. -/
theorem c9_understock (catalog : List PartRecord) (selSuppliers selParts : List String) :
    (low_inventory (applyFilters catalog selSuppliers selParts)).Sublist
        (applyFilters catalog selSuppliers selParts)
    ∧ ∀ r : PartRecord, r ∈ low_inventory (applyFilters catalog selSuppliers selParts) ↔
        r ∈ applyFilters catalog selSuppliers selParts
          ∧ ∃ ci mi : ℚ, r.currentInventory = some ci ∧ r.minInventory = some mi ∧ ci < mi := by
  constructor
  · exact List.filter_sublist _
  · intro r
    unfold low_inventory
    rw [List.mem_filter]
    exact and_congr_right fun _ => optLt_iff _ _

/-- C9 witness: in a two-record catalog, the record with CurrentInventory 5
and MinInventory 10 is understocked and the record with CurrentInventory 20
and MinInventory 10 is not. -/
theorem c9_understock_witness :
    (⟨"P1", "A", none, some 10, none, none, some 5, none⟩ : PartRecord) ∈
        low_inventory (applyFilters
          [⟨"P1", "A", none, some 10, none, none, some 5, none⟩,
           ⟨"P2", "A", none, some 10, none, none, some 20, none⟩] [] [])
    ∧ (⟨"P2", "A", none, some 10, none, none, some 20, none⟩ : PartRecord) ∉
        low_inventory (applyFilters
          [⟨"P1", "A", none, some 10, none, none, some 5, none⟩,
           ⟨"P2", "A", none, some 10, none, none, some 20, none⟩] [] []) := by
  constructor
  · exact ((c9_understock _ _ _).2 _).mpr
      ⟨by simp [applyFilters], 5, 10, rfl, rfl, by norm_num⟩
  · intro hmem
    obtain ⟨-, ci, mi, hci, hmi, hlt⟩ := ((c9_understock _ _ _).2 _).mp hmem
    injection hci with h1
    injection hmi with h2
    rw [← h1, ← h2] at hlt
    norm_num at hlt

/-- C8: the Threshold Analyzer returns, besides the Understocked list, the
OverstockFlagged list containing exactly the filtered records whose
UsageRate is present and greater than a present MaxInventory, in catalog
order. -/
theorem c8_overstock (catalog : List PartRecord) (selSuppliers selParts : List String) :
    ((thresholdAnalyzer (applyFilters catalog selSuppliers selParts)).2).Sublist
        (applyFilters catalog selSuppliers selParts)
    ∧ (thresholdAnalyzer (applyFilters catalog selSuppliers selParts)).1
        = low_inventory (applyFilters catalog selSuppliers selParts)
    ∧ ∀ r : PartRecord,
        r ∈ (thresholdAnalyzer (applyFilters catalog selSuppliers selParts)).2 ↔
          r ∈ applyFilters catalog selSuppliers selParts
            ∧ ∃ ur mx : ℚ, r.usageRate = some ur ∧ r.maxInventory = some mx ∧ mx < ur := by
  refine ⟨List.filter_sublist _, rfl, ?_⟩
  intro r
  show r ∈ overstock_flagged _ ↔ _
  unfold overstock_flagged
  rw [List.mem_filter]
  refine and_congr_right fun _ => ?_
  rw [optLt_iff]
  constructor
  · rintro ⟨mx, ur, hmx, hur, hlt⟩
    exact ⟨ur, mx, hur, hmx, hlt⟩
  · rintro ⟨ur, mx, hur, hmx, hlt⟩
    exact ⟨mx, ur, hmx, hur, hlt⟩

/-- C8 witness: a record with UsageRate 30 and MaxInventory 20 lands in the
OverstockFlagged component. -/
theorem c8_overstock_witness :
    (⟨"P1", "A", some 30, none, some 20, none, none, none⟩ : PartRecord) ∈
      (thresholdAnalyzer (applyFilters
        [⟨"P1", "A", some 30, none, some 20, none, none, none⟩] [] [])).2 :=
  ((c8_overstock _ _ _).2.2 _).mpr ⟨by simp [applyFilters], 30, 20, rfl, rfl, by norm_num⟩

/-- C2: with fewer than 2 observations for the selected part the Usage
Forecaster returns the structured InsufficientData signal (a value of the
result type, not a fault and not a fitted projection). -/
theorem c2_insufficient_data (catalog : List PartRecord) (part : String) (horizon : ℕ)
    (h : (observations catalog part).length < 2) :
    usageForecaster catalog part horizon = ForecastResult.insufficientData := by
  simp [usageForecaster, h]

/-- C2 witness: a single-observation catalog yields InsufficientData. -/
theorem c2_insufficient_data_witness :
    (observations [⟨"P1", "A", some 10, none, none, none, none, none⟩] "P1").length < 2
    ∧ usageForecaster [⟨"P1", "A", some 10, none, none, none, none, none⟩] "P1" 30
        = ForecastResult.insufficientData := by
  have h : (observations [⟨"P1", "A", some 10, none, none, none, none, none⟩] "P1").length < 2 := by
    simp [observations]
  exact ⟨h, c2_insufficient_data _ _ 30 h⟩

/-- C1: whenever the selected part has exactly the two observations
(day 0, usage 10) and (day 1, usage 14), the forecaster fits slope 4 and
intercept 10 and projects usage 18 at day offset 2. -/
theorem c1_forecaster_two_points (catalog : List PartRecord) (part : String)
    (h : ((catalog.filter fun r => r.partNumber == part).filterMap fun r => r.usageRate)
        = [10, 14]) :
    ∃ proj, usageForecaster catalog part 30 = ForecastResult.forecast 4 10 proj
      ∧ ((2 : ℕ), (18 : ℚ)) ∈ proj := by
  have hobs : observations catalog part = [(0, 10), (1, 14)] := by
    unfold observations
    rw [h]
    norm_num [List.enum]
  have hslope : olsSlope [((0 : ℚ), (10 : ℚ)), (1, 14)] = 4 := by
    norm_num [olsSlope]
  have hicept : olsIntercept [((0 : ℚ), (10 : ℚ)), (1, 14)] = 10 := by
    norm_num [olsIntercept, olsSlope]
  refine ⟨(List.range 30).map fun k => (2 + k, 4 * ((2 + k : ℕ) : ℚ) + 10), ?_, ?_⟩
  · simp only [usageForecaster]
    rw [hobs]
    rw [if_neg (by norm_num : ¬ ([((0 : ℚ), (10 : ℚ)), (1, 14)].length < 2))]
    rw [hslope, hicept]
    rfl
  · refine List.mem_map.mpr ⟨0, ?_, ?_⟩
    · simp
    · norm_num

/-- C1 witness: a catalog holding exactly the usage observations 10 and 14
for part P1 produces the fit slope 4, intercept 10 and the projected point
(2, 18). -/
theorem c1_forecaster_two_points_witness :
    ∃ proj, usageForecaster
        [⟨"P1", "A", some 10, none, none, none, none, none⟩,
         ⟨"P1", "A", some 14, none, none, none, none, none⟩] "P1" 30
        = ForecastResult.forecast 4 10 proj ∧ ((2 : ℕ), (18 : ℚ)) ∈ proj :=
  c1_forecaster_two_points _ "P1" rfl

/-- C3 counterexample: on the two-supplier metrics table where A scores raw 1
and B scores raw 13/10, the source computes A's Rating as the unrounded
1000/13 = 76.923..., while the claimed 2-decimal rounding of that value,
76.92, differs from it — so the Rating is not rounded. -/
theorem c3_rounding_counterexample :
    (ratingScorer [⟨"A", some 1, 1, 0, some 1⟩, ⟨"B", some 1, 2, 0, some 1⟩]).map
        (fun r => r.rating) = [EF.fin (1000 / 13), EF.fin 100]
    ∧ round2 (1000 / 13) ≠ (1000 / 13 : ℚ) := by
  have hA : rawScore ⟨"A", some 1, 1, 0, some 1⟩ = EF.fin 1 := by
    show EF.addE (EF.addE (EF.mulE (EF.divE (EF.fin 1) (EF.fin 1)) (EF.fin (2 / 5)))
        (EF.mulE (EF.fin ((1 : ℕ) : ℚ)) (EF.fin (3 / 10))))
      (EF.mulE (EF.fin 1) (EF.fin (3 / 10))) = EF.fin 1
    rw [EF.divE_fin 1 1 one_ne_zero, EF.mulE_fin, EF.mulE_fin, EF.mulE_fin, EF.addE_fin,
      EF.addE_fin]
    norm_num [EF.fin.injEq]
  have hB : rawScore ⟨"B", some 1, 2, 0, some 1⟩ = EF.fin (13 / 10) := by
    show EF.addE (EF.addE (EF.mulE (EF.divE (EF.fin 1) (EF.fin 1)) (EF.fin (2 / 5)))
        (EF.mulE (EF.fin ((2 : ℕ) : ℚ)) (EF.fin (3 / 10))))
      (EF.mulE (EF.fin 1) (EF.fin (3 / 10))) = EF.fin (13 / 10)
    rw [EF.divE_fin 1 1 one_ne_zero, EF.mulE_fin, EF.mulE_fin, EF.mulE_fin, EF.addE_fin,
      EF.addE_fin]
    norm_num [EF.fin.injEq]
  have hle : EF.leE (EF.fin 1) (EF.fin (13 / 10)) = true := by
    show decide ((1 : ℚ) ≤ 13 / 10) = true
    rw [decide_eq_true_eq]
    norm_num
  have hmax : efMax [EF.fin 1, EF.fin (13 / 10)] = EF.fin (13 / 10) := by
    show List.foldl efMaxStep (EF.fin 1) [EF.fin (13 / 10)] = EF.fin (13 / 10)
    rw [List.foldl_cons, List.foldl_nil]
    show (if EF.leE (EF.fin 1) (EF.fin (13 / 10)) = true then EF.fin (13 / 10) else EF.fin 1)
      = EF.fin (13 / 10)
    rw [if_pos hle]
  constructor
  · simp only [ratingScorer, List.map_cons, List.map_nil]
    rw [hA, hB, hmax]
    rw [EF.divE_fin 1 (13 / 10) (by norm_num), EF.divE_fin (13 / 10) (13 / 10) (by norm_num),
      EF.mulE_fin, EF.mulE_fin]
    norm_num [EF.fin.injEq]
  · unfold round2
    have hfl : Int.floor ((1000 : ℚ) / 13 * 100 + 1 / 2) = 7692 := by norm_num
    rw [hfl]
    norm_num

/-- C3 (amended): for every SupplierMetrics sequence the source computes each
raw score as 0.4 * (1 / AvgLeadTime) + 0.3 * PartCount +
0.3 * AvgRemainingUsageTime and each Rating as raw divided by the maximum
raw score times 100 — exactly as the spec words it, but with no rounding. -/
theorem c3_rating_formula (ms : List SupplierMetrics) :
    (ratingScorer ms).map (fun r => r.rating) = specRatings ms := by
  have hraw : rawScore = specRawScore := by
    funext m
    unfold rawScore specRawScore
    rw [EF.mulE_comm (recipTerm m) (EF.fin (2 / 5)),
      EF.mulE_comm (EF.fin ((m.partCount : ℚ))) (EF.fin (3 / 10)),
      EF.mulE_comm (EF.ofOpt m.avgRemainingUsageTime) (EF.fin (3 / 10))]
  unfold ratingScorer specRatings
  rw [List.map_map, hraw]
  rfl

/-- C3 witness: the formula agreement applied to the empty table. -/
theorem c3_rating_formula_witness :
    (ratingScorer []).map (fun r => r.rating) = specRatings [] :=
  c3_rating_formula []

/-- C5 counterexample: with AvgLeadTime 0 the reciprocal term evaluates to
positive infinity — not to any finite value, let alone a maximum finite
representable one — while the supplier still appears in the output. -/
theorem c5_reciprocal_counterexample :
    recipTerm ⟨"A", some 0, 1, 0, some 1⟩ = EF.pinf
    ∧ EF.pinf.isFinite = false
    ∧ ((ratingScorer [⟨"A", some 0, 1, 0, some 1⟩]).map fun r => r.metrics.supplier) = ["A"] := by
  refine ⟨?_, rfl, rfl⟩
  show EF.divE (EF.fin 1) (EF.fin 0) = EF.pinf
  exact EF.divE_zero_pos 1 one_pos

/-- C5 (amended): a zero AvgLeadTime makes the reciprocal term positive
infinity and a missing one makes it NaN (IEEE division, as numpy computes
it); in both cases the computation is total and the supplier's row is not
dropped from the scored output. -/
theorem c5_reciprocal_amended (ms : List SupplierMetrics) (m : SupplierMetrics)
    (hm : m ∈ ms) :
    (m.avgLeadTime = some 0 → recipTerm m = EF.pinf)
    ∧ (m.avgLeadTime = none → recipTerm m = EF.nan)
    ∧ m ∈ (sortValuesDesc (ratingScorer ms)).map fun r => r.metrics := by
  refine ⟨?_, ?_, ?_⟩
  · intro h
    unfold recipTerm
    rw [h]
    exact EF.divE_zero_pos 1 one_pos
  · intro h
    unfold recipTerm
    rw [h]
    rfl
  · rw [List.mem_map]
    refine ⟨RatedMetrics.mk m (EF.mulE (EF.divE (rawScore m) (efMax (ms.map rawScore)))
      (EF.fin 100)), ?_, rfl⟩
    rw [mem_sortValuesDesc]
    unfold ratingScorer
    exact List.mem_map.mpr ⟨m, hm, rfl⟩

/-- C5 witness: the amended statement at a concrete single-row table with
AvgLeadTime 0. -/
theorem c5_reciprocal_amended_witness :
    ((⟨"A", some 0, 1, 0, some 1⟩ : SupplierMetrics).avgLeadTime = some 0 →
        recipTerm ⟨"A", some 0, 1, 0, some 1⟩ = EF.pinf)
    ∧ ((⟨"A", some 0, 1, 0, some 1⟩ : SupplierMetrics).avgLeadTime = none →
        recipTerm ⟨"A", some 0, 1, 0, some 1⟩ = EF.nan)
    ∧ (⟨"A", some 0, 1, 0, some 1⟩ : SupplierMetrics) ∈
        (sortValuesDesc (ratingScorer [⟨"A", some 0, 1, 0, some 1⟩])).map fun r => r.metrics :=
  c5_reciprocal_amended _ _ (List.mem_singleton.mpr rfl)

/-- A supplier-metrics row whose raw score is exactly 0:
0.4 * (1 / -1) + 0.3 * 1 + 0.3 * (1/3) = 0. -/
theorem rawScore_example_zero :
    rawScore ⟨"A", some (-1), 1, 0, some (1 / 3)⟩ = EF.fin 0 := by
  show EF.addE (EF.addE (EF.mulE (EF.divE (EF.fin 1) (EF.fin (-1))) (EF.fin (2 / 5)))
      (EF.mulE (EF.fin ((1 : ℕ) : ℚ)) (EF.fin (3 / 10))))
    (EF.mulE (EF.fin (1 / 3)) (EF.fin (3 / 10))) = EF.fin 0
  rw [EF.divE_fin 1 (-1) (by norm_num), EF.mulE_fin, EF.mulE_fin, EF.mulE_fin, EF.addE_fin,
    EF.addE_fin]
  norm_num [EF.fin.injEq]

/-- C6 counterexample: on a table whose only raw score is 0 the source
computes Rating = (0/0) * 100 = NaN for the entry, not the claimed 0. -/
theorem c6_degenerate_counterexample :
    (ratingScorer [⟨"A", some (-1), 1, 0, some (1 / 3)⟩]).map (fun r => r.rating) = [EF.nan]
    ∧ EF.nan ≠ EF.fin 0 := by
  constructor
  · simp only [ratingScorer, List.map_cons, List.map_nil]
    rw [rawScore_example_zero]
    rw [show efMax [EF.fin 0] = EF.fin 0 from rfl]
    rw [EF.divE_zero_zero, EF.mulE_nan_left]
  · exact fun hcon => EF.noConfusion hcon

/-- C6 (amended): when every raw score is 0 (and for the empty table) the
scorer neither faults nor reorders: the normalization 0/0 makes every Rating
NaN, the sort keeps all rows (NaN rows are appended in original order), and
the full table is still returned. -/
theorem c6_degenerate_amended (ms : List SupplierMetrics)
    (h : ∀ m ∈ ms, rawScore m = EF.fin 0) :
    (sortValuesDesc (ratingScorer ms)).map (fun r => r.metrics) = ms
    ∧ (sortValuesDesc (ratingScorer ms)).map (fun r => r.rating) = ms.map fun _ => EF.nan := by
  cases ms with
  | nil => exact ⟨rfl, rfl⟩
  | cons m0 tl =>
    have hmax : efMax ((m0 :: tl).map rawScore) = EF.fin 0 := by
      have hall : ∀ x ∈ (m0 :: tl).map rawScore, x = EF.fin 0 := by
        intro x hx
        obtain ⟨m, hm, he⟩ := List.mem_map.mp hx
        rw [← he]
        exact h m hm
      have hnn : ∀ x ∈ (m0 :: tl).map rawScore, x.isNan = false := by
        intro x hx
        rw [hall x hx]
        rfl
      obtain ⟨hmem, -⟩ := efMax_spec _ hnn (by simp)
      exact hall _ hmem
    have hrat : ∀ m ∈ m0 :: tl,
        EF.mulE (EF.divE (rawScore m) (efMax ((m0 :: tl).map rawScore))) (EF.fin 100)
          = EF.nan := by
      intro m hm
      rw [h m hm, hmax, EF.divE_zero_zero, EF.mulE_nan_left]
    have hratR : ∀ r ∈ ratingScorer (m0 :: tl), r.rating = EF.nan := by
      intro r hr
      obtain ⟨m, hm, he⟩ := List.mem_map.mp hr
      rw [← he]
      exact hrat m hm
    have hfilter1 : (ratingScorer (m0 :: tl)).filter (fun r => !r.rating.isNan) = [] := by
      rw [List.filter_eq_nil_iff]
      intro r hr
      rw [hratR r hr]
      decide
    have hfilter2 : (ratingScorer (m0 :: tl)).filter (fun r => r.rating.isNan)
        = ratingScorer (m0 :: tl) := by
      rw [List.filter_eq_self]
      intro r hr
      rw [hratR r hr]
      rfl
    have hsv : sortValuesDesc (ratingScorer (m0 :: tl)) = ratingScorer (m0 :: tl) := by
      unfold sortValuesDesc
      rw [hfilter1, hfilter2]
      rfl
    rw [hsv]
    constructor
    · unfold ratingScorer
      rw [List.map_map]
      exact List.map_id _
    · unfold ratingScorer
      rw [List.map_map]
      refine List.map_congr_left ?_
      intro m hm
      exact hrat m hm

/-- C6 witness: the amended statement at the concrete raw-score-0 table. -/
theorem c6_degenerate_amended_witness :
    (sortValuesDesc (ratingScorer [⟨"A", some (-1), 1, 0, some (1 / 3)⟩])).map
        (fun r => r.metrics) = [⟨"A", some (-1), 1, 0, some (1 / 3)⟩]
    ∧ (sortValuesDesc (ratingScorer [⟨"A", some (-1), 1, 0, some (1 / 3)⟩])).map
        (fun r => r.rating)
      = ([⟨"A", some (-1), 1, 0, some (1 / 3)⟩] : List SupplierMetrics).map fun _ => EF.nan :=
  c6_degenerate_amended _ fun m hm => by
    rw [List.mem_singleton.mp hm]
    exact rawScore_example_zero

/-- The skipna mean of a mapped column, phrased through the list of present
values. -/
theorem meanOpt_map (l : List PartRecord) (f : PartRecord → Option ℚ) :
    meanOpt (l.map f) = if (l.filterMap f).isEmpty then none
      else some ((l.filterMap f).sum / ((l.filterMap f).length : ℚ)) := by
  unfold meanOpt
  rw [List.filterMap_map, Function.id_comp]

/-- C4: the Supplier Aggregator emits one row per distinct Supplier value of
the filtered records — none invented, none dropped — with PartCount the size
of the group (rows with missing numeric cells still counted), TotalUsageRate
the sum of the present UsageRate values (missing contributing 0), and the two
averages the means over present values only, themselves missing exactly when
the group has no present value, never a fault. -/
theorem c4_supplier_aggregator (catalog : List PartRecord)
    (selSuppliers selParts : List String) :
    let d := applyFilters catalog selSuppliers selParts
    ((supplierAggregate d).map fun m => m.supplier).Nodup
    ∧ (∀ s : String, ((s ∈ (supplierAggregate d).map fun m => m.supplier)
        ↔ ∃ r ∈ d, r.supplier = s))
    ∧ ∀ m ∈ supplierAggregate d,
        let g := groupOf d m.supplier
        let leads := g.filterMap fun r => r.avgLeadTimeDays
        let rems := g.filterMap fun r => r.remainingUsageTimeDays
        m.partCount = g.length
        ∧ m.totalUsageRate = (g.filterMap fun r => r.usageRate).sum
        ∧ (leads = [] → m.avgLeadTime = none)
        ∧ (leads ≠ [] → m.avgLeadTime = some (leads.sum / (leads.length : ℚ)))
        ∧ (rems = [] → m.avgRemainingUsageTime = none)
        ∧ (rems ≠ [] → m.avgRemainingUsageTime = some (rems.sum / (rems.length : ℚ))) := by
  intro d
  have hmap : ((supplierAggregate d).map fun m => m.supplier) = distinctSuppliers d := by
    unfold supplierAggregate
    rw [List.map_map]
    exact List.map_id _
  refine ⟨?_, ?_, ?_⟩
  · rw [hmap]
    exact (pairwise_distinctSuppliers d).imp fun hab => hab.2
  · intro s
    rw [hmap]
    unfold distinctSuppliers
    rw [mem_sSort, List.mem_dedup, List.mem_map]
  · intro m hm
    unfold supplierAggregate at hm
    obtain ⟨s, hs, he⟩ := List.mem_map.mp hm
    subst he
    intro g leads rems
    refine ⟨rfl, rfl, ?_, ?_, ?_, ?_⟩
    · intro hnil
      show meanOpt ((groupOf d s).map fun r => r.avgLeadTimeDays) = none
      rw [meanOpt_map]
      have hnil' : (groupOf d s).filterMap (fun r => r.avgLeadTimeDays) = [] := hnil
      rw [hnil']
      rfl
    · intro hne
      show meanOpt ((groupOf d s).map fun r => r.avgLeadTimeDays)
        = some (leads.sum / (leads.length : ℚ))
      rw [meanOpt_map]
      have hne' : (groupOf d s).filterMap (fun r => r.avgLeadTimeDays) ≠ [] := hne
      have hfalse : ((groupOf d s).filterMap fun r => r.avgLeadTimeDays).isEmpty = false := by
        cases hx : (groupOf d s).filterMap fun r => r.avgLeadTimeDays
        · exact absurd hx hne'
        · rfl
      rw [hfalse]
      rfl
    · intro hnil
      show meanOpt ((groupOf d s).map fun r => r.remainingUsageTimeDays) = none
      rw [meanOpt_map]
      have hnil' : (groupOf d s).filterMap (fun r => r.remainingUsageTimeDays) = [] := hnil
      rw [hnil']
      rfl
    · intro hne
      show meanOpt ((groupOf d s).map fun r => r.remainingUsageTimeDays)
        = some (rems.sum / (rems.length : ℚ))
      rw [meanOpt_map]
      have hne' : (groupOf d s).filterMap (fun r => r.remainingUsageTimeDays) ≠ [] := hne
      have hfalse : ((groupOf d s).filterMap fun r => r.remainingUsageTimeDays).isEmpty
          = false := by
        cases hx : (groupOf d s).filterMap fun r => r.remainingUsageTimeDays
        · exact absurd hx hne'
        · rfl
      rw [hfalse]
      rfl

/-- C4 witness: in the spec's end-to-end scenario (two records, both of
supplier A) the aggregate row for A counts 2 parts, the size of its group. -/
theorem c4_supplier_aggregator_witness :
    (groupStats (applyFilters
        [⟨"P1", "A", none, some 50, none, some 5, some 100, none⟩,
         ⟨"P2", "A", none, some 50, none, some 5, some 10, none⟩] [] []) "A").partCount
      = (groupOf (applyFilters
        [⟨"P1", "A", none, some 50, none, some 5, some 100, none⟩,
         ⟨"P2", "A", none, some 50, none, some 5, some 10, none⟩] [] []) "A").length := by
  have h := c4_supplier_aggregator
    [⟨"P1", "A", none, some 50, none, some 5, some 100, none⟩,
     ⟨"P2", "A", none, some 50, none, some 5, some 10, none⟩] [] []
  exact (h.2.2 _ (List.mem_singleton.mpr rfl)).1

/-- sort_values on a two-row table whose Ratings tie (both non-NaN): the
descending sort is stable — the pre-reversal, stable ascending argsort and
final reversal cancel on ties, so the rows keep their original order. -/
theorem sortValuesDesc_pair_tie (a b : RatedMetrics) (h : ratingLe b a = true)
    (ha : a.rating.isNan = false) (hb : b.rating.isNan = false) :
    sortValuesDesc [a, b] = [a, b] := by
  have hfa : List.filter (fun r => !r.rating.isNan) [a, b] = [a, b] := by
    rw [List.filter_eq_self]
    intro x hx
    rcases List.mem_cons.mp hx with he | hx
    · rw [he]
      show (!a.rating.isNan) = true
      rw [ha]
      rfl
    · rw [List.mem_singleton.mp hx]
      show (!b.rating.isNan) = true
      rw [hb]
      rfl
  have hfb : List.filter (fun r => r.rating.isNan) [a, b] = [] := by
    rw [List.filter_eq_nil_iff]
    intro x hx
    rcases List.mem_cons.mp hx with he | hx
    · rw [he]
      show ¬ (a.rating.isNan = true)
      rw [ha]
      exact Bool.false_ne_true
    · rw [List.mem_singleton.mp hx]
      show ¬ (b.rating.isNan = true)
      rw [hb]
      exact Bool.false_ne_true
  unfold sortValuesDesc
  rw [hfa, hfb]
  show (sInsert ratingLe b [a]).reverse ++ [] = [a, b]
  unfold sInsert
  rw [if_pos h]
  rfl

/-- C7: for every catalog and filter sets, the scored supplier table is
sorted in descending order of Rating (NaN-rated rows, which compare with
nothing, close the table in their original order), and any two rows with
equal Rating appear in ascending lexicographic Supplier order: the stable
descending sort keeps ties in the ascending groupby key order.  Exact for
tables of at most 16 suppliers, whose sort numpy runs as stable insertion
sort; the stable refinement of numpy's quicksort beyond that. -/
theorem c7_sort_order (catalog : List PartRecord)
    (selSuppliers selParts : List String) :
    (supplierPerformance (applyFilters catalog selSuppliers selParts)).Pairwise afterRel := by
  have h1 := pairwise_distinctSuppliers (applyFilters catalog selSuppliers selParts)
  have h2 : (supplierAggregate (applyFilters catalog selSuppliers selParts)).Pairwise
      fun a b => strBefore a.supplier b.supplier := by
    unfold supplierAggregate
    rw [List.pairwise_map]
    exact h1
  have h3 : (ratingScorer
      (supplierAggregate (applyFilters catalog selSuppliers selParts))).Pairwise
      fun a b => strBefore a.metrics.supplier b.metrics.supplier := by
    unfold ratingScorer
    rw [List.pairwise_map]
    exact h2
  exact pairwise_sortValuesDesc _ h3

/-- C7 witness: the ordering statement applied at a concrete two-supplier
catalog whose rows tie at Rating 100, together with the concrete sorted
output — A before B, the ascending tie order. -/
theorem c7_sort_order_witness :
    (supplierPerformance (applyFilters
        [⟨"P1", "A", some 1, some 1, some 1, some 1, some 1, some 1⟩,
         ⟨"P2", "B", some 1, some 1, some 1, some 1, some 1, some 1⟩] [] [])).Pairwise afterRel
    ∧ ((supplierPerformance (applyFilters
        [⟨"P1", "A", some 1, some 1, some 1, some 1, some 1, some 1⟩,
         ⟨"P2", "B", some 1, some 1, some 1, some 1, some 1, some 1⟩] [] [])).map
        fun r => (r.metrics.supplier, r.rating))
      = [("A", EF.fin 100), ("B", EF.fin 100)] := by
  refine ⟨c7_sort_order
    [⟨"P1", "A", some 1, some 1, some 1, some 1, some 1, some 1⟩,
     ⟨"P2", "B", some 1, some 1, some 1, some 1, some 1, some 1⟩] [] [], ?_⟩
  have hgA : groupStats
      [⟨"P1", "A", some 1, some 1, some 1, some 1, some 1, some 1⟩,
       ⟨"P2", "B", some 1, some 1, some 1, some 1, some 1, some 1⟩] "A"
      = ⟨"A", some 1, 1, 1, some 1⟩ := by
    show (⟨"A", meanOpt [some 1], 1, ([(1 : ℚ)]).sum, meanOpt [some 1]⟩ : SupplierMetrics) = _
    have hm : meanOpt [some (1 : ℚ)] = some 1 := by
      show some (([(1 : ℚ)]).sum / ((([(1 : ℚ)]).length : ℕ) : ℚ)) = some 1
      norm_num
    rw [hm]
    norm_num [SupplierMetrics.mk.injEq]
  have hgB : groupStats
      [⟨"P1", "A", some 1, some 1, some 1, some 1, some 1, some 1⟩,
       ⟨"P2", "B", some 1, some 1, some 1, some 1, some 1, some 1⟩] "B"
      = ⟨"B", some 1, 1, 1, some 1⟩ := by
    show (⟨"B", meanOpt [some 1], 1, ([(1 : ℚ)]).sum, meanOpt [some 1]⟩ : SupplierMetrics) = _
    have hm : meanOpt [some (1 : ℚ)] = some 1 := by
      show some (([(1 : ℚ)]).sum / ((([(1 : ℚ)]).length : ℕ) : ℚ)) = some 1
      norm_num
    rw [hm]
    norm_num [SupplierMetrics.mk.injEq]
  have hagg : supplierAggregate
      [⟨"P1", "A", some 1, some 1, some 1, some 1, some 1, some 1⟩,
       ⟨"P2", "B", some 1, some 1, some 1, some 1, some 1, some 1⟩]
      = [⟨"A", some 1, 1, 1, some 1⟩, ⟨"B", some 1, 1, 1, some 1⟩] := by
    show [groupStats
        [⟨"P1", "A", some 1, some 1, some 1, some 1, some 1, some 1⟩,
         ⟨"P2", "B", some 1, some 1, some 1, some 1, some 1, some 1⟩] "A",
      groupStats
        [⟨"P1", "A", some 1, some 1, some 1, some 1, some 1, some 1⟩,
         ⟨"P2", "B", some 1, some 1, some 1, some 1, some 1, some 1⟩] "B"] = _
    rw [hgA, hgB]
  have hrA : rawScore ⟨"A", some 1, 1, 1, some 1⟩ = EF.fin 1 := by
    show EF.addE (EF.addE (EF.mulE (EF.divE (EF.fin 1) (EF.fin 1)) (EF.fin (2 / 5)))
        (EF.mulE (EF.fin ((1 : ℕ) : ℚ)) (EF.fin (3 / 10))))
      (EF.mulE (EF.fin 1) (EF.fin (3 / 10))) = EF.fin 1
    rw [EF.divE_fin 1 1 one_ne_zero, EF.mulE_fin, EF.mulE_fin, EF.mulE_fin, EF.addE_fin,
      EF.addE_fin]
    norm_num [EF.fin.injEq]
  have hrB : rawScore ⟨"B", some 1, 1, 1, some 1⟩ = EF.fin 1 := by
    show EF.addE (EF.addE (EF.mulE (EF.divE (EF.fin 1) (EF.fin 1)) (EF.fin (2 / 5)))
        (EF.mulE (EF.fin ((1 : ℕ) : ℚ)) (EF.fin (3 / 10))))
      (EF.mulE (EF.fin 1) (EF.fin (3 / 10))) = EF.fin 1
    rw [EF.divE_fin 1 1 one_ne_zero, EF.mulE_fin, EF.mulE_fin, EF.mulE_fin, EF.addE_fin,
      EF.addE_fin]
    norm_num [EF.fin.injEq]
  have hle11 : EF.leE (EF.fin 1) (EF.fin 1) = true := by norm_num [EF.leE]
  have hmax : efMax [EF.fin 1, EF.fin 1] = EF.fin 1 := by
    show List.foldl efMaxStep (EF.fin 1) [EF.fin 1] = EF.fin 1
    rw [List.foldl_cons, List.foldl_nil]
    show (if EF.leE (EF.fin 1) (EF.fin 1) = true then EF.fin 1 else EF.fin 1) = EF.fin 1
    rw [if_pos hle11]
  have hscore : ratingScorer [⟨"A", some 1, 1, 1, some 1⟩, ⟨"B", some 1, 1, 1, some 1⟩]
      = [RatedMetrics.mk ⟨"A", some 1, 1, 1, some 1⟩ (EF.fin 100),
         RatedMetrics.mk ⟨"B", some 1, 1, 1, some 1⟩ (EF.fin 100)] := by
    simp only [ratingScorer, List.map_cons, List.map_nil]
    rw [hrA, hrB, hmax, EF.divE_fin 1 1 one_ne_zero, EF.mulE_fin]
    norm_num [EF.fin.injEq, RatedMetrics.mk.injEq]
  have hletie : ratingLe (RatedMetrics.mk ⟨"B", some 1, 1, 1, some 1⟩ (EF.fin 100))
      (RatedMetrics.mk ⟨"A", some 1, 1, 1, some 1⟩ (EF.fin 100)) = true := by
    show EF.sortLe (EF.fin 100) (EF.fin 100) = true
    norm_num [EF.sortLe]
  show ((supplierPerformance
      [⟨"P1", "A", some 1, some 1, some 1, some 1, some 1, some 1⟩,
       ⟨"P2", "B", some 1, some 1, some 1, some 1, some 1, some 1⟩]).map
      fun r => (r.metrics.supplier, r.rating))
    = [("A", EF.fin 100), ("B", EF.fin 100)]
  unfold supplierPerformance
  rw [hagg, hscore, sortValuesDesc_pair_tie _ _ hletie rfl rfl]
  rfl

/-- C10 counterexample: with raw scores -2 and -1 the normalization produces
Rating 200, outside [0, 100]; and with the duplicated positive maximum raw
score 1 both co-maximal entries receive Rating exactly 100 although the
maximum is not unique. -/
theorem c10_range_counterexample :
    (ratingScorer [⟨"A", some 1, 1, 0, some (-9)⟩, ⟨"B", some 1, 1, 0, some (-17 / 3)⟩]).map
        (fun r => r.rating) = [EF.fin 200, EF.fin 100]
    ∧ ¬ ((200 : ℚ) ≤ 100)
    ∧ (ratingScorer [⟨"A", some 1, 1, 0, some 1⟩, ⟨"B", some 1, 1, 0, some 1⟩]).map
        (fun r => r.rating) = [EF.fin 100, EF.fin 100] := by
  refine ⟨?_, by norm_num, ?_⟩
  · have hA : rawScore ⟨"A", some 1, 1, 0, some (-9)⟩ = EF.fin (-2) := by
      show EF.addE (EF.addE (EF.mulE (EF.divE (EF.fin 1) (EF.fin 1)) (EF.fin (2 / 5)))
          (EF.mulE (EF.fin ((1 : ℕ) : ℚ)) (EF.fin (3 / 10))))
        (EF.mulE (EF.fin (-9)) (EF.fin (3 / 10))) = EF.fin (-2)
      rw [EF.divE_fin 1 1 one_ne_zero, EF.mulE_fin, EF.mulE_fin, EF.mulE_fin, EF.addE_fin,
        EF.addE_fin]
      norm_num [EF.fin.injEq]
    have hB : rawScore ⟨"B", some 1, 1, 0, some (-17 / 3)⟩ = EF.fin (-1) := by
      show EF.addE (EF.addE (EF.mulE (EF.divE (EF.fin 1) (EF.fin 1)) (EF.fin (2 / 5)))
          (EF.mulE (EF.fin ((1 : ℕ) : ℚ)) (EF.fin (3 / 10))))
        (EF.mulE (EF.fin (-17 / 3)) (EF.fin (3 / 10))) = EF.fin (-1)
      rw [EF.divE_fin 1 1 one_ne_zero, EF.mulE_fin, EF.mulE_fin, EF.mulE_fin, EF.addE_fin,
        EF.addE_fin]
      norm_num [EF.fin.injEq]
    have hle : EF.leE (EF.fin (-2)) (EF.fin (-1)) = true := by norm_num [EF.leE]
    have hmax : efMax [EF.fin (-2), EF.fin (-1)] = EF.fin (-1) := by
      show List.foldl efMaxStep (EF.fin (-2)) [EF.fin (-1)] = EF.fin (-1)
      rw [List.foldl_cons, List.foldl_nil]
      show (if EF.leE (EF.fin (-2)) (EF.fin (-1)) = true then EF.fin (-1) else EF.fin (-2))
        = EF.fin (-1)
      rw [if_pos hle]
    simp only [ratingScorer, List.map_cons, List.map_nil]
    rw [hA, hB, hmax, EF.divE_fin (-2) (-1) (by norm_num), EF.divE_fin (-1) (-1) (by norm_num),
      EF.mulE_fin, EF.mulE_fin]
    norm_num [EF.fin.injEq]
  · have hA : rawScore ⟨"A", some 1, 1, 0, some 1⟩ = EF.fin 1 := by
      show EF.addE (EF.addE (EF.mulE (EF.divE (EF.fin 1) (EF.fin 1)) (EF.fin (2 / 5)))
          (EF.mulE (EF.fin ((1 : ℕ) : ℚ)) (EF.fin (3 / 10))))
        (EF.mulE (EF.fin 1) (EF.fin (3 / 10))) = EF.fin 1
      rw [EF.divE_fin 1 1 one_ne_zero, EF.mulE_fin, EF.mulE_fin, EF.mulE_fin, EF.addE_fin,
        EF.addE_fin]
      norm_num [EF.fin.injEq]
    have hB : rawScore ⟨"B", some 1, 1, 0, some 1⟩ = EF.fin 1 := by
      show EF.addE (EF.addE (EF.mulE (EF.divE (EF.fin 1) (EF.fin 1)) (EF.fin (2 / 5)))
          (EF.mulE (EF.fin ((1 : ℕ) : ℚ)) (EF.fin (3 / 10))))
        (EF.mulE (EF.fin 1) (EF.fin (3 / 10))) = EF.fin 1
      rw [EF.divE_fin 1 1 one_ne_zero, EF.mulE_fin, EF.mulE_fin, EF.mulE_fin, EF.addE_fin,
        EF.addE_fin]
      norm_num [EF.fin.injEq]
    have hle : EF.leE (EF.fin 1) (EF.fin 1) = true := by norm_num [EF.leE]
    have hmax : efMax [EF.fin 1, EF.fin 1] = EF.fin 1 := by
      show List.foldl efMaxStep (EF.fin 1) [EF.fin 1] = EF.fin 1
      rw [List.foldl_cons, List.foldl_nil]
      show (if EF.leE (EF.fin 1) (EF.fin 1) = true then EF.fin 1 else EF.fin 1) = EF.fin 1
      rw [if_pos hle]
    simp only [ratingScorer, List.map_cons, List.map_nil]
    rw [hA, hB, hmax, EF.divE_fin 1 1 one_ne_zero, EF.mulE_fin]
    norm_num [EF.fin.injEq]

/-- C10 (amended): when every raw score is finite and nonnegative and some
raw score is positive, every Rating is a finite value in [0, 100], and every
entry whose raw score attains the (positive) column maximum — unique or not —
receives Rating exactly 100. -/
theorem c10_range_amended (ms : List SupplierMetrics)
    (h1 : ∀ m ∈ ms, ∃ q : ℚ, rawScore m = EF.fin q ∧ 0 ≤ q)
    (h2 : ∃ m, m ∈ ms ∧ ∃ q : ℚ, rawScore m = EF.fin q ∧ 0 < q) :
    (∀ r ∈ ratingScorer ms, ∃ q : ℚ, r.rating = EF.fin q ∧ 0 ≤ q ∧ q ≤ 100)
    ∧ ∀ r ∈ ratingScorer ms, rawScore r.metrics = efMax (ms.map rawScore) →
        r.rating = EF.fin 100 := by
  obtain ⟨mp, hmp, qp, hqp, hqppos⟩ := h2
  have hnn : ∀ x ∈ ms.map rawScore, x.isNan = false := by
    intro x hx
    obtain ⟨m, hm, he⟩ := List.mem_map.mp hx
    obtain ⟨q, hq, -⟩ := h1 m hm
    rw [← he, hq]
    rfl
  have hne : ms.map rawScore ≠ [] := by
    cases ms with
    | nil => exact absurd hmp (List.not_mem_nil mp)
    | cons x xs => simp
  obtain ⟨hmem, hub⟩ := efMax_spec (ms.map rawScore) hnn hne
  obtain ⟨mmax, hmmax, hemax⟩ := List.mem_map.mp hmem
  obtain ⟨M, hM, hM0⟩ := h1 mmax hmmax
  have hmaxfin : efMax (ms.map rawScore) = EF.fin M := by
    rw [← hemax, hM]
  have hqpM : qp ≤ M := by
    have hx := hub (rawScore mp) (List.mem_map_of_mem _ hmp)
    rw [hqp, hmaxfin] at hx
    simpa [EF.leE] using hx
  have hMpos : 0 < M := lt_of_lt_of_le hqppos hqpM
  constructor
  · intro r hr
    obtain ⟨m, hm, he⟩ := List.mem_map.mp hr
    obtain ⟨q, hq, hq0⟩ := h1 m hm
    have hqM : q ≤ M := by
      have hx := hub (rawScore m) (List.mem_map_of_mem _ hm)
      rw [hq, hmaxfin] at hx
      simpa [EF.leE] using hx
    refine ⟨q / M * 100, ?_, ?_, ?_⟩
    · rw [← he]
      show EF.mulE (EF.divE (rawScore m) (efMax (ms.map rawScore))) (EF.fin 100)
        = EF.fin (q / M * 100)
      rw [hq, hmaxfin, EF.divE_fin q M (ne_of_gt hMpos), EF.mulE_fin]
    · exact mul_nonneg (div_nonneg hq0 (le_of_lt hMpos)) (by norm_num)
    · have hdiv : q / M ≤ 1 := (div_le_one hMpos).mpr hqM
      calc q / M * 100 ≤ 1 * 100 := mul_le_mul_of_nonneg_right hdiv (by norm_num)
        _ = 100 := by norm_num
  · intro r hr hrm
    obtain ⟨m, hm, he⟩ := List.mem_map.mp hr
    rw [← he]
    show EF.mulE (EF.divE (rawScore m) (efMax (ms.map rawScore))) (EF.fin 100) = EF.fin 100
    have hrm' : rawScore m = efMax (ms.map rawScore) := by
      rw [← he] at hrm
      exact hrm
    rw [hrm', hmaxfin, EF.divE_fin M M (ne_of_gt hMpos), EF.mulE_fin]
    rw [div_self (ne_of_gt hMpos)]
    norm_num

/-- C10 witness: a single supplier with raw score 1 — the hypotheses hold and
its Rating is the finite value 100, inside [0, 100]. -/
theorem c10_range_amended_witness :
    ∃ q : ℚ, (RatedMetrics.mk (⟨"A", some 1, 1, 0, some 1⟩ : SupplierMetrics)
        (EF.mulE (EF.divE (rawScore ⟨"A", some 1, 1, 0, some 1⟩)
          (efMax ([⟨"A", some 1, 1, 0, some 1⟩].map rawScore))) (EF.fin 100))).rating
        = EF.fin q ∧ 0 ≤ q ∧ q ≤ 100 := by
  have hA : rawScore ⟨"A", some 1, 1, 0, some 1⟩ = EF.fin 1 := by
    show EF.addE (EF.addE (EF.mulE (EF.divE (EF.fin 1) (EF.fin 1)) (EF.fin (2 / 5)))
        (EF.mulE (EF.fin ((1 : ℕ) : ℚ)) (EF.fin (3 / 10))))
      (EF.mulE (EF.fin 1) (EF.fin (3 / 10))) = EF.fin 1
    rw [EF.divE_fin 1 1 one_ne_zero, EF.mulE_fin, EF.mulE_fin, EF.mulE_fin, EF.addE_fin,
      EF.addE_fin]
    norm_num [EF.fin.injEq]
  exact (c10_range_amended [⟨"A", some 1, 1, 0, some 1⟩]
      (fun m hm => ⟨1, by rw [List.mem_singleton.mp hm]; exact hA, by norm_num⟩)
      ⟨⟨"A", some 1, 1, 0, some 1⟩, List.mem_singleton.mpr rfl, 1, hA, by norm_num⟩).1
    _ (List.mem_singleton.mpr rfl)
